import Mathlib

/-!
Verification development for the klepto database-sanitising tool
(fork usoban/klepto).  The definitions below are a shallow embedding of
the Go sources:

* `quoteIdentifier`, `getViewWeight`, `weightedViews`  — pkg/reader/mysql/reader.go
* `formatColumn`, `formatColumns`, `buildQuery`, `effectiveOpts`,
  `publishRows`, `expandRels`, `readTable`                 — the generic sql reader
  (source file `part_000`, package `generic`)
* `anonymise`, `condEnv`, `evalExp`, `applyDirective`, `transformRow`,
  `transformTask`, `anonymiserReadTable`                  — pkg/anonymiser/anonymiser.go
* `goOptionValue`, `goIsSome`                             — pkg/util (option.go)
* `DumpStep`, `occupiedCount`                             — pkg/dumper/engine/engine.go
* `runMirrorConns`                                        — cmd/mirror.go

Channels and goroutines are embedded as event traces; database access is
embedded as a pure environment (`DB`) mapping table names to row lists and
column lists.  Machine integers are modelled as `Int`/`Nat` (no overflow is
exercised by the code under study).
-/

/-- A cell value of a database row, modelling the Go `interface{}` values
that `sql.Rows.Scan` can produce, plus the values the anonymiser's
expression language can store back into a row.  `unrepr` stands for a value
that the cell-to-SQL-literal conversion rejects; the spec says the
conversion "rejects non-representable types with `ValueError`". -/
inductive Cell where
  | null
  | intV (n : Int)
  | strV (s : String)
  | bytes (b : String)
  | boolV (b : Bool)
  | optV (isSome : Bool) (v : Cell)
  | unrepr
deriving DecidableEq, Repr

/-- A row: ordered mapping from column name to cell (the spec's data model
for `Row`; Go's `database.Row` is `map[string]interface{}`, whose key-set
semantics this association list mirrors: updating an absent key adds it). -/
abbrev RowL := List (String × Cell)

/-- Fetch a cell from a row; a missing column yields the Go zero value
`nil`, i.e. `Cell.null` (source: `value, _ := table.Row[r.ForeignKey]`). -/
def cellOf (row : RowL) (column : String) : Cell :=
  match row.lookup column with
  | some v => v
  | none => Cell.null

/-- Set a cell in a row: update in place when the column exists, append
otherwise (Go map assignment `row[column] = v`). -/
def setCell (row : RowL) (column : String) (v : Cell) : RowL :=
  match row with
  | [] => [(column, v)]
  | (c, w) :: rest =>
      if c = column then (c, v) :: rest else (c, w) :: setCell rest column v

/-- Modelled from the spec: `database.ToSQLStringValue` (pkg/database is not
under src/).  The spec says the conversion "rejects non-representable types
with `ValueError`" and that "`NULL` foreign keys skip expansion", so the
conversion fails on `null` and on non-representable values and renders the
representable scalar kinds as strings. -/
def toSQLStringValue : Cell → Option String
  | Cell.null => none
  | Cell.intV n => some (toString n)
  | Cell.strV s => some s
  | Cell.bytes b => some b
  | Cell.boolV b => some (if b then "1" else "0")
  | Cell.optV _ _ => none
  | Cell.unrepr => none

/-- SQL comparison of a cell against the quoted string literal inserted by
`fmt.Sprintf("%s = '%v'", r.ReferencedKey, rowValue)`: a `NULL` cell matches
nothing, other cells match when their SQL rendering equals the literal. -/
def cellMatchesLiteral (v : Cell) (lit : String) : Bool :=
  match toSQLStringValue v with
  | some s => s == lit
  | none => false

/-- A scanned result row: `scanOk = false` models a row for which
`rows.Scan` fails (the source logs and skips such rows). -/
structure SRow where
  scanOk : Bool
  cells : RowL
deriving DecidableEq, Repr

/-- A relationship option (source: `reader.RelationshipOpt`). -/
structure RelOpt where
  table : String
  referencedTable : String
  referencedKey : String
  foreignKey : String
deriving DecidableEq, Repr

/-- Options for one table read (source: `reader.ReadTableOpt`, populated by
the engine from the table configuration). -/
structure ReadTableOpt where
  columns : List String := []
  matchClause : String := ""
  sorts : List String := []
  limit : Nat := 0
  relationships : List RelOpt := []
deriving Repr

/-- The database environment seen by the reader: per-table row lists (the
result set of an unrestricted `SELECT`, `none` when the table does not exist
or the query fails), per-table column lists (`none` when `GetColumns`
fails), and the dialect's identifier quoting. -/
structure DB where
  tables : String → Option (List SRow)
  columns : String → Option (List String)
  quote : String → String

/-- MySQL identifier quoting (source: `QuoteIdentifier` in
pkg/reader/mysql/reader.go): surround with backticks, doubling any inner
backtick. -/
def quoteIdentifier (name : String) : String :=
  "`" ++ (name.replace "`" "``") ++ "`"

/-- Source: `FormatColumn` — a quoted `table`.`column` pair. -/
def formatColumn (quote : String → String) (tableName columnName : String) : String :=
  quote tableName ++ "." ++ quote columnName

/-- Source: `formatColumns` — quote every column of a table. -/
def formatColumns (quote : String → String) (tableName : String)
    (columns : List String) : List String :=
  columns.map (formatColumn quote tableName)

/-- The SQL select built by the reader, as structured data (squirrel's
`SelectBuilder` state). -/
structure SelectQuery where
  columns : List String
  fromTable : String
  whereClauses : List String
  orderBy : List String
  limit : Option Nat
deriving DecidableEq, Repr

/-- Source: `buildQuery` (generic sql reader).  The source builds
`sq.Select(opts.Columns...).From(s.QuoteIdentifier(tableName))` and adds a
`LIMIT` when `opts.Limit > 0`.  It adds no `WHERE` and no `ORDER BY`. -/
def buildQuery (quote : String → String) (tableName : String)
    (opts : ReadTableOpt) : SelectQuery :=
  { columns := opts.columns
    fromTable := quote tableName
    whereClauses := []
    orderBy := []
    limit := if opts.limit > 0 then some opts.limit else none }

/-- The column-population step of `ReadTable` (source lines 91–97): when
`opts.Columns` is empty it is filled with the formatted columns from
`GetColumns`; a `GetColumns` failure aborts. -/
def effectiveOpts (db : DB) (tableName : String) (opts : ReadTableOpt) :
    Option ReadTableOpt :=
  if opts.columns = [] then
    (db.columns tableName).map
      (fun cols => { opts with columns := formatColumns db.quote tableName cols })
  else
    some opts

/-- Errors surfaced by the reader. -/
inductive ReadErr where
  | getColumnsFailed
  | queryFailed
  | relColumnsFailed
  | relQueryFailed
deriving DecidableEq, Repr

/-- A published stream element: the table name and the row, i.e. the
`*database.Table` value sent on the row channel. -/
abbrev Pub := String × RowL

/-- The recursive `publishRows` call made for relationship rows passes a
`ReadTableOpt` holding only columns — no relationships — so it reduces to
this specialisation: skip rows whose scan failed, publish the rest. -/
def publishPlain (tableName : String) (rows : List SRow) : List Pub :=
  rows.filterMap (fun sr => if sr.scanOk then some (tableName, sr.cells) else none)

/-- Relationship expansion for one parent row (source: the
`for _, r := range opts.Relationships` loop of `publishRows`).  For each
relationship in declaration order: a `GetColumns` failure returns an error
(terminating); a failed cell-to-SQL conversion logs and skips the
relationship (`continue`); a failed child query returns an error; otherwise
the child rows matching `referencedKey = '<value>'` are published (errors of
the recursive publish are logged, not propagated).  Returns the published
child rows together with the error that stopped the loop, if any. -/
def expandRels (db : DB) (row : RowL) :
    List RelOpt → List Pub × Option ReadErr
  | [] => ([], none)
  | r :: rest =>
    match db.columns r.referencedTable with
    | none => ([], some ReadErr.relColumnsFailed)
    | some _ =>
      match toSQLStringValue (cellOf row r.foreignKey) with
      | none => expandRels db row rest
      | some v =>
        match db.tables r.referencedTable with
        | none => ([], some ReadErr.relQueryFailed)
        | some childRows =>
          let pubs := publishPlain r.referencedTable
            (childRows.filter (fun c => cellMatchesLiteral (cellOf c.cells r.referencedKey) v))
          let (restPubs, e) := expandRels db row rest
          (pubs ++ restPubs, e)

/-- Source: `publishRows`.  For each result row: a failed scan is logged
and skipped; otherwise the row's relationships are expanded into the same
stream (an expansion error terminates publication with that error) and then
the parent row itself is published. -/
def publishRows (db : DB) (tableName : String) (opts : ReadTableOpt) :
    List SRow → List Pub × Option ReadErr
  | [] => ([], none)
  | sr :: rest =>
    if sr.scanOk then
      let (childPubs, e) := expandRels db sr.cells opts.relationships
      match e with
      | some err => (childPubs, some err)
      | none =>
        let (restPubs, e2) := publishRows db tableName opts rest
        (childPubs ++ (tableName, sr.cells) :: restPubs, e2)
    else
      publishRows db tableName opts rest

/-- `publishRows` instrumented with a provenance tag: `true` marks a row
published by the outer loop (a parent row of this `publishRows` call),
`false` marks a relationship (child) row.  The tag is verification
bookkeeping only; `publishRowsT_erase` shows erasing it yields exactly
`publishRows`. -/
def publishRowsT (db : DB) (tableName : String) (opts : ReadTableOpt) :
    List SRow → List (Bool × Pub) × Option ReadErr
  | [] => ([], none)
  | sr :: rest =>
    if sr.scanOk then
      let (childPubs, e) := expandRels db sr.cells opts.relationships
      match e with
      | some err => (childPubs.map (fun p => (false, p)), some err)
      | none =>
        let (restPubs, e2) := publishRowsT db tableName opts rest
        (childPubs.map (fun p => (false, p)) ++ (true, (tableName, sr.cells)) :: restPubs, e2)
    else
      publishRowsT db tableName opts rest

/-- An event on a row channel: a send of one table row, or closing. -/
inductive Event where
  | send (p : Pub)
  | closeCh
deriving DecidableEq, Repr

/-- Source: `ReadTable` of the generic sql reader.  `defer close(rowChan)`
closes the sink on every path, so every produced trace ends with a single
close event: after populating columns (failure: error, close), building and
running the query (failure: error, close), the rows are published and the
channel closed. -/
def readTable (db : DB) (tableName : String) (opts : ReadTableOpt) :
    List Event × Option ReadErr :=
  match effectiveOpts db tableName opts with
  | none => ([Event.closeCh], some ReadErr.getColumnsFailed)
  | some opts2 =>
    let q := buildQuery db.quote tableName opts2
    match db.tables tableName with
    | none => ([Event.closeCh], some ReadErr.queryFailed)
    | some rows =>
      let fetched := match q.limit with
        | some n => rows.take n
        | none => rows
      let (pubs, e) := publishRows db tableName opts2 fetched
      (pubs.map Event.send ++ [Event.closeCh], e)

/-! ## Anonymiser (pkg/anonymiser/anonymiser.go) and option type (pkg/util) -/

/-- Result of a computation that can hit an unrecovered Go panic. -/
inductive POr (α : Type) where
  | panicked
  | ok (a : α)
deriving DecidableEq, Repr

/-- Source: `option.IsSome` — reads the `isSome` field. -/
def goIsSome (isSome : Bool) : Bool := isSome

/-- Source: `option.Value` — panics when the option does not hold a value,
otherwise returns the payload. -/
def goOptionValue (isSome : Bool) (v : Cell) : POr Cell :=
  if isSome then POr.ok v else POr.panicked

/-- The compiled form (`vm.Program`) of a conditional rule, as an
expression AST: string literals, identifiers, calls of a named binding
with zero, one or two arguments, and the ternary conditional.  The call
arity is fixed per node, matching the arities of the environment
functions. -/
inductive Exp where
  | str (s : String)
  | ident (n : String)
  | call0 (fn : String)
  | call1 (fn : String) (a : Exp)
  | call2 (fn : String) (a b : Exp)
  | ternary (c t e : Exp)
deriving DecidableEq, Repr

/-- An anonymisation directive, the parsed form of the configured string:
`literal:<s>` / `cond:<expression>` (carrying the compiled program) /
a faker name.  The source dispatches on the string prefixes
`literal:` and `cond:`; the constructors record the outcome of that
dispatch, with `cond` holding the `expr.Compile` result. -/
inductive Directive where
  | literal (s : String)
  | cond (p : Exp)
  | faker (name : String)

/-- Tag naming one of the Go closures placed in the environment. -/
inductive FnTag where
  | valueT
  | anonT
  | skipT
deriving DecidableEq, Repr

/-- A value manipulated by the expression VM: a cell, the row map, or one
of the environment's function bindings. -/
inductive RVal where
  | cv (c : Cell)
  | rowR (r : List (String × Cell))
  | fnV (t : FnTag)

/-- One binding of the evaluation environment. -/
inductive Binding where
  | val (v : Cell)
  | rowB (r : List (String × Cell))
  | fn (t : FnTag)

/-- Source: the environment built per cell evaluation (anonymiser.go,
the `env := map[string]interface{}{...}` literal).  It binds exactly
`row`, `column`, `Value`, `Anon` and `Skip`. -/
def condEnv (row : RowL) (column : String) : List (String × Binding) :=
  [("row", Binding.rowB row),
   ("column", Binding.val (cellOf row column)),
   ("Value", Binding.fn FnTag.valueT),
   ("Anon", Binding.fn FnTag.anonT),
   ("Skip", Binding.fn FnTag.skipT)]

/-- Source: `Anonymise`.  The faker library and the cryptographic random
suffix appended for `EmailAddress`/`UserName` are external (the spec keeps
the faker value library out of scope), so the whole generated value is
supplied by the `faker` oracle; an unknown faker name yields `""` — the
oracle covers that case too. -/
def anonymise (faker : String → String) (fakerType : String) : String :=
  faker fakerType

/-- Application of one of the environment's Go closures to evaluated
arguments.  `Value` performs `row[columnName].([]uint8)` — the type
assertion succeeds only on a bytes cell; any panic inside a closure is
recovered by the expression VM's `Run` and surfaces as an evaluation
error.  `Anon` wraps a faker value in `Some`, `Skip` returns `None`.
An argument list not matching the closure's signature is likewise a
(recovered) reflection error. -/
def applyFn (faker : String → String) : FnTag → List RVal → Except String RVal
  | FnTag.valueT, [RVal.rowR r, RVal.cv (Cell.strV name)] =>
      match cellOf r name with
      | Cell.bytes b => Except.ok (RVal.cv (Cell.strV b))
      | _ => Except.error "interface conversion panic in Value"
  | FnTag.valueT, _ => Except.error "reflect: bad arguments to Value"
  | FnTag.anonT, [RVal.cv (Cell.strV ft)] =>
      Except.ok (RVal.cv (Cell.optV true (Cell.strV (anonymise faker ft))))
  | FnTag.anonT, _ => Except.error "reflect: bad arguments to Anon"
  | FnTag.skipT, [] => Except.ok (RVal.cv (Cell.optV false Cell.null))
  | FnTag.skipT, _ => Except.error "reflect: bad arguments to Skip"

/-- The expression VM (`expr.Run` on a compiled program): identifiers are
fetched from the environment (an unbound identifier is a runtime error),
calls look up the named binding and apply it, the ternary conditional
requires a boolean condition.  Any panic raised inside the run is
recovered and returned as the error. -/
def evalExp (faker : String → String) (env : List (String × Binding)) :
    Exp → Except String RVal
  | Exp.str s => Except.ok (RVal.cv (Cell.strV s))
  | Exp.ident n =>
    match env.lookup n with
    | some (Binding.val v) => Except.ok (RVal.cv v)
    | some (Binding.rowB r) => Except.ok (RVal.rowR r)
    | some (Binding.fn t) => Except.ok (RVal.fnV t)
    | none => Except.error ("cannot fetch " ++ n)
  | Exp.call0 fn =>
    match env.lookup fn with
    | some (Binding.fn t) => applyFn faker t []
    | some _ => Except.error (fn ++ " is not callable")
    | none => Except.error ("cannot fetch " ++ fn)
  | Exp.call1 fn a =>
    match env.lookup fn with
    | some (Binding.fn t) => do
        let va ← evalExp faker env a
        applyFn faker t [va]
    | some _ => Except.error (fn ++ " is not callable")
    | none => Except.error ("cannot fetch " ++ fn)
  | Exp.call2 fn a b =>
    match env.lookup fn with
    | some (Binding.fn t) => do
        let va ← evalExp faker env a
        let vb ← evalExp faker env b
        applyFn faker t [va, vb]
    | some _ => Except.error (fn ++ " is not callable")
    | none => Except.error ("cannot fetch " ++ fn)
  | Exp.ternary c t e => do
    let vc ← evalExp faker env c
    match vc with
    | RVal.cv (Cell.boolV true) => evalExp faker env t
    | RVal.cv (Cell.boolV false) => evalExp faker env e
    | _ => Except.error "non-boolean condition"

/-- One step of the per-row transformation loop of the anonymiser's
cooperative task (anonymiser.go, the `for column, fakerType :=
range table.Anonymise` body): a `literal:` directive overwrites the cell
with the literal; a `cond:` directive builds the environment and runs the
compiled program — a runtime error is logged and the cell left unchanged,
otherwise the result is cast `output.(*option.Option)` with NO type check
(a non-option result therefore panics the task), `Some v` replaces the
cell and `None` leaves it; any other directive is a faker name whose
generated value overwrites the cell. -/
def applyDirective (faker : String → String) (row : RowL) (column : String) :
    Directive → POr RowL
  | Directive.literal s => POr.ok (setCell row column (Cell.strV s))
  | Directive.cond p =>
    match evalExp faker (condEnv row column) p with
    | Except.error _ => POr.ok row
    | Except.ok out =>
      match out with
      | RVal.cv (Cell.optV isSome v) =>
        if goIsSome isSome then
          match goOptionValue isSome v with
          | POr.ok pv => POr.ok (setCell row column pv)
          | POr.panicked => POr.panicked
        else POr.ok row
      | _ => POr.panicked
  | Directive.faker name => POr.ok (setCell row column (Cell.strV (anonymise faker name)))

/-- The whole per-row transformation: apply every configured directive in
turn (Go map iteration order is unspecified; the directive list fixes one
order).  A panic in any step kills the task. -/
def transformRow (faker : String → String) :
    List (String × Directive) → RowL → POr RowL
  | [], row => POr.ok row
  | (column, d) :: rest, row =>
    match applyDirective faker row column d with
    | POr.panicked => POr.panicked
    | POr.ok row2 => transformRow faker rest row2

/-- The anonymiser's cooperative task as a trace transformer: it receives
from the intermediate channel, transforms, and forwards to the downstream
sink; when the upstream channel closes it closes the downstream sink and
returns.  A panic while transforming kills the task (and with it the
process) — modelled as `none` — so nothing further is forwarded and the
sink is never closed. -/
def transformTask (f : RowL → POr RowL) : List Event → Option (List Event)
  | [] => some []
  | Event.closeCh :: _ => some [Event.closeCh]
  | Event.send (t, row) :: rest =>
    match f row with
    | POr.panicked => none
    | POr.ok row2 => (transformTask f rest).map (fun es => Event.send (t, row2) :: es)

/-- Per-table configuration (source: `config.Table`; only the fields the
embedded components read). -/
structure TableCfg where
  name : String
  anonymise : List (String × Directive)

/-- Source: `config.Tables.FindByName` (config package, not under src/);
modelled from the spec/source use: it errors when the table has no
configuration, here `none`. -/
def findByName (cfgs : List TableCfg) (tableName : String) : Option TableCfg :=
  cfgs.find? (fun c => c.name == tableName)

/-- Source: the anonymiser's `ReadTable`.  Without configuration, or with
an empty `Anonymise` map, it delegates to the wrapped reader with the
caller's sink.  Otherwise it allocates the intermediate channel, spawns the
transform task, and calls the wrapped reader on the intermediate channel;
its error is propagated wrapped.  The first component is the event trace
seen by the caller's sink (`none` when the transform task panicked, in
which case the process dies and the call never returns). -/
def anonymiserReadTable (db : DB) (cfgs : List TableCfg)
    (faker : String → String) (tableName : String) (opts : ReadTableOpt) :
    Option (List Event) × Option ReadErr :=
  match findByName cfgs tableName with
  | none => let (es, e) := readTable db tableName opts
            (some es, e)
  | some cfg =>
    if cfg.anonymise.isEmpty then
      let (es, e) := readTable db tableName opts
      (some es, e)
    else
      let (raw, e) := readTable db tableName opts
      (transformTask (transformRow faker cfg.anonymise) raw, e)

/-! ## Engine semaphore discipline (pkg/dumper/engine/engine.go) -/

/-- The lifecycle phases of one table's pipeline: not yet launched; both
reader and dumper tasks running; reader finished (channel closed) with the
dumper still draining; dumper finished and semaphore slot released. -/
inductive TPhase where
  | pending
  | bothActive
  | readerFin
  | released
deriving DecidableEq, Repr

/-- A table occupies its semaphore slot from the send on `semChan` (just
before its goroutines are spawned) until the dump goroutine's deferred
receive, which runs only after `DumpTable` returns. -/
def occupies : TPhase → Bool
  | TPhase.bothActive => true
  | TPhase.readerFin => true
  | _ => false

/-- Number of semaphore slots in use (= in-flight table dumps). -/
def occupiedCount (s : List TPhase) : Nat :=
  s.countP (fun ph => occupies ph)

/-- The steps of `readAndDumpTables`: a table is launched only when the
buffered `semChan` (capacity `conc`) accepts the send, i.e. when fewer
than `conc` slots are held; the reader finishes (closing the row channel)
while the dumper still drains; the dumper finishes only after the reader
closed the channel, and its deferred receive then releases the slot. -/
inductive DumpStep (conc : Nat) : List TPhase → List TPhase → Prop
  | launch (s : List TPhase) (i : Nat)
      (hp : s.get? i = some TPhase.pending)
      (hc : occupiedCount s < conc) :
      DumpStep conc s (s.set i TPhase.bothActive)
  | readerFinish (s : List TPhase) (i : Nat)
      (hp : s.get? i = some TPhase.bothActive) :
      DumpStep conc s (s.set i TPhase.readerFin)
  | dumperFinish (s : List TPhase) (i : Nat)
      (hp : s.get? i = some TPhase.readerFin) :
      DumpStep conc s (s.set i TPhase.released)

/-- States reachable during one `Dump` over `n` tables: every table starts
unlaunched. -/
def DumpReachable (conc n : Nat) (s : List TPhase) : Prop :=
  Relation.ReflTransGen (DumpStep conc) (List.replicate n TPhase.pending) s

/-! ## View planner (pkg/reader/mysql/reader.go) -/

/-- Source: `int(^uint(0) >> 1)` — the maximum value of Go's 64-bit `int`. -/
def maxGoInt : Int := 2 ^ 63 - 1

/-- Source: `getViewWeight` — the weight configured for the view in
`spec.Views`, defaulting to max-int when the name is absent. -/
def getViewWeight (viewName : String) (views : List (String × Int)) : Int :=
  match views.lookup viewName with
  | some w => w
  | none => maxGoInt

/-- Source: the `wView` struct. -/
structure WView where
  name : String
  weight : Int
deriving DecidableEq, Repr

/-- The weighted view list built by `GetViewDefinitions` before sorting:
the views in DB discovery order, each paired with its configured weight. -/
def weightedViews (views : List (String × Int)) (discovered : List String) :
    List WView :=
  discovered.map (fun n => { name := n, weight := getViewWeight n views })

/-- The contract of `sort.Slice(weightedViews, func(i, j int) bool
{ return weightedViews[i].weight < weightedViews[j].weight })`: the result
is a permutation of the input that is sorted by the comparison — and
nothing more, since `sort.Slice` is documented as NOT guaranteed to be
stable. -/
def sortSliceSpec (inp out : List WView) : Prop :=
  inp.Perm out ∧ out.Pairwise (fun x y => x.weight ≤ y.weight)

/-- The DDL statements emitted by `GetViewDefinitions` after sorting, in
emission order: one `CREATE OR REPLACE VIEW` per view, using the view body
fetched from `information_schema` (the `bodies` oracle). -/
def viewDDLs (bodies : String → String) (sorted : List WView) : List String :=
  sorted.map (fun w =>
    "CREATE OR REPLACE VIEW " ++ quoteIdentifier w.name ++ " AS " ++ bodies w.name ++ ";\n")

/-! ## Mirror command (cmd/mirror.go) -/

/-- Source: the `connOpts` string fields of the CLI options. -/
structure ConnOptsS where
  timeout : String
  maxConnLifetime : String
  maxConns : Int
  maxIdleConns : Int

/-- Source: `MirrorOptions`. -/
structure MirrorOpts where
  fromDSN : String
  toDSN : String
  concurrency : Int
  readOpts : ConnOptsS
  writeOpts : ConnOptsS
  srcDbPref : String
  dstDbPref : String

/-- The connection options handed to `reader.Connect` / `dumper.NewDumper`
(source: `reader.ConnOpts` / `dumper.ConnOpts`; durations as seconds). -/
structure ConnOpts where
  dsn : String
  timeout : Nat
  maxConnLifetime : Nat
  maxConns : Int
  maxIdleConns : Int
deriving DecidableEq, Repr

/-- Source: the option-parsing and connection-building part of `RunMirror`
(cmd/mirror.go lines 63–94), with `time.ParseDuration` supplied as the
`parseDur` oracle and `failOnError` (which exits the process) modelled by
`Option`.  Note the source computes the write timeout from
`opts.readOpts.timeout` (line 67), not from `opts.writeOpts.timeout`.
Returns the reader connection options and the dumper connection options. -/
def runMirrorConns (parseDur : String → Option Nat) (o : MirrorOpts) :
    Option (ConnOpts × ConnOpts) := do
  let readTimeout ← parseDur o.readOpts.timeout
  let writeTimeout ← parseDur o.readOpts.timeout
  let readMaxConnLifetime ← parseDur o.readOpts.maxConnLifetime
  let writeMaxConnLifetime ← parseDur o.writeOpts.maxConnLifetime
  some
    ({ dsn := o.fromDSN
       timeout := readTimeout
       maxConnLifetime := readMaxConnLifetime
       maxConns := o.readOpts.maxConns
       maxIdleConns := o.readOpts.maxIdleConns },
     { dsn := o.toDSN
       timeout := writeTimeout
       maxConnLifetime := writeMaxConnLifetime
       maxConns := o.writeOpts.maxConns
       maxIdleConns := o.writeOpts.maxIdleConns })

/-! ## Concrete fixtures used by witnesses and counterexamples -/

/-- A faker oracle producing nothing (unknown faker names yield `""`). -/
def noFaker : String → String := fun _ => ""

/-- A small concrete database: `users(id, name)` and `orders(id, user_id)`
with one row each (the spec's scenario S4 shape). -/
def dbW : DB :=
  { tables := fun t =>
      if t = "users" then
        some [{ scanOk := true, cells := [("id", Cell.intV 3), ("name", Cell.strV "ann")] }]
      else if t = "orders" then
        some [{ scanOk := true, cells := [("id", Cell.intV 7), ("user_id", Cell.intV 3)] }]
      else none
    columns := fun t =>
      if t = "users" then some ["id", "name"]
      else if t = "orders" then some ["id", "user_id"]
      else none
    quote := quoteIdentifier }

/-- The relationship of scenario S4: `orders.user_id → users.id`. -/
def relW : RelOpt :=
  { table := "orders", referencedTable := "users",
    referencedKey := "id", foreignKey := "user_id" }

/-- Read options carrying the S4 relationship. -/
def optsW : ReadTableOpt := { relationships := [relW] }

/-- The compiled AST of the S2 rule
`IsNil(row,"email") ? Literal("N/A") : Skip()`. -/
def s2prog : Exp :=
  Exp.ternary (Exp.call2 "IsNil" (Exp.ident "row") (Exp.str "email"))
    (Exp.call1 "Literal" (Exp.str "N/A"))
    (Exp.call0 "Skip")

/-- A concrete duration parser covering the values used in witnesses
(`time.ParseDuration`, external to the repo; seconds). -/
def parseDurW : String → Option Nat := fun s =>
  if s = "5m" then some 300
  else if s = "30s" then some 30
  else if s = "0" then some 0
  else none

/-- The mirror options of the C9 failing input: `--read-timeout 5m
--write-timeout 30s`. -/
def mirrorOptsW : MirrorOpts :=
  { fromDSN := "mysql://src", toDSN := "mysql://dst", concurrency := 4
    readOpts := { timeout := "5m", maxConnLifetime := "0", maxConns := 5, maxIdleConns := 0 }
    writeOpts := { timeout := "30s", maxConnLifetime := "0", maxConns := 5, maxIdleConns := 0 }
    srcDbPref := "", dstDbPref := "" }

/-- A configuration anonymising the `name` column of `users`. -/
def cfgsW : List TableCfg :=
  [{ name := "users", anonymise := [("name", Directive.literal "anon")] }]

/-! ## Theorems -/

/-- C9 (code bug): `RunMirror` parses `opts.readOpts.timeout` for BOTH
connections (cmd/mirror.go line 67 reads `opts.readOpts.timeout` where the
write timeout is computed), so with `--read-timeout 5m --write-timeout 30s`
the dumper connection gets timeout 300 s (5m), not the 30 s that
`--write-timeout` ("Sets the timeout for write operations") requests. -/
theorem runMirror_timeout_wiring_bug :
    runMirrorConns parseDurW mirrorOptsW =
      some
        ({ dsn := "mysql://src", timeout := 300, maxConnLifetime := 0,
           maxConns := 5, maxIdleConns := 0 },
         { dsn := "mysql://dst", timeout := 300, maxConnLifetime := 0,
           maxConns := 5, maxIdleConns := 0 }) ∧
    parseDurW mirrorOptsW.writeOpts.timeout = some 30 ∧ (300 : Nat) ≠ 30 := by
  exact ⟨by decide, by decide, by decide⟩

/-- C2 (counterexample): the query built for a read whose options carry a
non-empty match fragment and a non-empty sort list still has no `WHERE`
clause and no `ORDER BY` — `buildQuery` ignores both options. -/
theorem buildQuery_ignores_match_and_sorts :
    buildQuery quoteIdentifier "users"
        { columns := ["`users`.`id`"], matchClause := "registered = 1",
          sorts := ["id"], limit := 100, relationships := [] } =
      { columns := ["`users`.`id`"], fromTable := quoteIdentifier "users",
        whereClauses := [], orderBy := [], limit := some 100 } ∧
    ("registered = 1" : String) ≠ "" ∧ (["id"] : List String) ≠ [] := by
  exact ⟨rfl, by decide, by decide⟩

/-- C2 (amended): when `opts.columns` is empty, `ReadTable` populates it
with the fully qualified, dialect-quoted column names from `GetColumns`,
and the executed query is a `SELECT` of that projection `FROM` the quoted
table name with a `LIMIT` when the row limit is positive — but with no
`WHERE` clause and no `ORDER BY` (the match and sort options are ignored
by this reader). -/
theorem readTable_query_construction (db : DB) (t : String) (opts : ReadTableOpt)
    (cols : List String) (hempty : opts.columns = []) (hcols : db.columns t = some cols) :
    effectiveOpts db t opts = some { opts with columns := formatColumns db.quote t cols } ∧
    buildQuery db.quote t { opts with columns := formatColumns db.quote t cols } =
      { columns := formatColumns db.quote t cols, fromTable := db.quote t,
        whereClauses := [], orderBy := [],
        limit := if opts.limit > 0 then some opts.limit else none } := by
  refine ⟨?_, rfl⟩
  simp [effectiveOpts, hempty, hcols]

/-- Witness for `readTable_query_construction` at the concrete `orders`
table of `dbW`. -/
theorem readTable_query_construction_witness :
    ({} : ReadTableOpt).columns = [] ∧
    dbW.columns "orders" = some ["id", "user_id"] ∧
    effectiveOpts dbW "orders" {} =
      some { ({} : ReadTableOpt) with
             columns := formatColumns dbW.quote "orders" ["id", "user_id"] } :=
  ⟨rfl, by decide,
   (readTable_query_construction dbW "orders" {} ["id", "user_id"] rfl (by decide)).1⟩

/-- C5 (counterexample): the conditional-rule environment binds neither
`IsNil` nor `Literal`, so the S2 rule
`IsNil(row,"email") ? Literal("N/A") : Skip()` hits a runtime error
(unknown identifier) and leaves the row `{email:null}` unchanged — it does
NOT become `{email:"N/A"}`. -/
theorem condEnv_missing_isnil :
    (condEnv [("email", Cell.null)] "email").lookup "IsNil" = none ∧
    (condEnv [("email", Cell.null)] "email").lookup "Literal" = none ∧
    transformRow noFaker [("email", Directive.cond s2prog)] [("email", Cell.null)] =
      POr.ok [("email", Cell.null)] ∧
    ([("email", Cell.null)] : RowL) ≠ [("email", Cell.strV "N/A")] := by
  exact ⟨rfl, rfl, by decide, by decide⟩

/-- C5 (amended): the evaluation environment of a `cond:` rule binds
exactly `row`, `column`, `Value`, `Anon` and `Skip` (no `IsNil`, no
`Literal`), and therefore the S2 rule errors at runtime on every row —
null or not — leaving the row unchanged. -/
theorem condEnv_bindings_and_s2 (row : RowL) (faker : String → String) :
    (condEnv row "email").map Prod.fst = ["row", "column", "Value", "Anon", "Skip"] ∧
    transformRow faker [("email", Directive.cond s2prog)] row = POr.ok row := by
  exact ⟨rfl, rfl⟩

/-- Keys are preserved by a cell update whose column already exists. -/
theorem setCell_keys_of_mem (row : RowL) (column : String) (v : Cell)
    (h : column ∈ row.map Prod.fst) :
    (setCell row column v).map Prod.fst = row.map Prod.fst := by
  induction row with
  | nil => simp at h
  | cons hd tl ih =>
    obtain ⟨c, w⟩ := hd
    by_cases hc : c = column
    · simp [setCell, hc]
    · simp only [setCell, if_neg hc, List.map_cons]
      simp only [List.map_cons, List.mem_cons] at h
      rcases h with h | h
      · exact absurd h.symm hc
      · rw [ih h]

/-- A single directive application that completes without panicking maps a
row to a row with the same columns, provided the directive's column exists
in the row. -/
theorem applyDirective_keys (faker : String → String) (row : RowL) (column : String)
    (d : Directive) (out : RowL) (hmem : column ∈ row.map Prod.fst)
    (h : applyDirective faker row column d = POr.ok out) :
    out.map Prod.fst = row.map Prod.fst := by
  cases d with
  | literal s =>
    simp only [applyDirective] at h
    cases h
    exact setCell_keys_of_mem row column _ hmem
  | faker name =>
    simp only [applyDirective] at h
    cases h
    exact setCell_keys_of_mem row column _ hmem
  | cond p =>
    simp only [applyDirective] at h
    cases heval : evalExp faker (condEnv row column) p with
    | error e => rw [heval] at h; cases h; rfl
    | ok outv =>
      rw [heval] at h
      cases outv with
      | rowR r => cases h
      | fnV t => cases h
      | cv c =>
        cases c with
        | optV isSome v =>
          cases isSome with
          | true =>
            simp only [goIsSome, goOptionValue, if_pos rfl, if_true] at h
            cases h
            exact setCell_keys_of_mem row column _ hmem
          | false =>
            simp only [goIsSome, if_false, Bool.false_eq_true] at h
            cases h
            rfl
        | null => cases h
        | intV n => cases h
        | strV s => cases h
        | bytes b => cases h
        | boolV b => cases h
        | unrepr => cases h

/-- C7 (amended): provided every column named by the anonymisation spec is
present in the input row, a transform that completes without panicking
emits a row with exactly the same columns in the same order; only cell
values change. -/
theorem transformRow_preserves_keys (faker : String → String)
    (spec : List (String × Directive)) (row out : RowL)
    (hcols : ∀ c ∈ spec.map Prod.fst, c ∈ row.map Prod.fst)
    (h : transformRow faker spec row = POr.ok out) :
    out.map Prod.fst = row.map Prod.fst := by
  induction spec generalizing row with
  | nil => simp only [transformRow] at h; cases h; rfl
  | cons hd rest ih =>
    obtain ⟨c, d⟩ := hd
    simp only [transformRow] at h
    cases happ : applyDirective faker row c d with
    | panicked => rw [happ] at h; cases h
    | ok row2 =>
      rw [happ] at h
      have hmem : c ∈ row.map Prod.fst := hcols c (by simp)
      have hkeys : row2.map Prod.fst = row.map Prod.fst :=
        applyDirective_keys faker row c d row2 hmem happ
      have : out.map Prod.fst = row2.map Prod.fst := by
        refine ih row2 ?_ h
        intro c2 hc2
        rw [hkeys]
        exact hcols c2 (by simp [hc2])
      rw [this, hkeys]

/-- Witness for `transformRow_preserves_keys`: anonymising the existing
`name` column of a concrete row keeps the column list unchanged. -/
theorem transformRow_preserves_keys_witness :
    (∀ c ∈ ([("name", Directive.literal "anon")] : List (String × Directive)).map Prod.fst,
        c ∈ ([("id", Cell.intV 3), ("name", Cell.strV "ann")] : RowL).map Prod.fst) ∧
    transformRow noFaker [("name", Directive.literal "anon")]
        [("id", Cell.intV 3), ("name", Cell.strV "ann")] =
      POr.ok [("id", Cell.intV 3), ("name", Cell.strV "anon")] ∧
    ([("id", Cell.intV 3), ("name", Cell.strV "anon")] : RowL).map Prod.fst =
      ([("id", Cell.intV 3), ("name", Cell.strV "ann")] : RowL).map Prod.fst :=
  ⟨by decide, by decide,
   transformRow_preserves_keys noFaker [("name", Directive.literal "anon")]
     [("id", Cell.intV 3), ("name", Cell.strV "ann")]
     [("id", Cell.intV 3), ("name", Cell.strV "anon")] (by decide) (by decide)⟩

/-- C7 (counterexample): an anonymisation spec naming a column absent from
the input row makes the transform ADD that column (Go map assignment on a
missing key), so the output row's column set differs from the input's. -/
theorem anonymiser_adds_missing_column :
    transformRow noFaker [("email", Directive.literal "x@y")] [("id", Cell.strV "1")] =
      POr.ok [("id", Cell.strV "1"), ("email", Cell.strV "x@y")] ∧
    ([("id", Cell.strV "1"), ("email", Cell.strV "x@y")] : RowL).map Prod.fst ≠
      ([("id", Cell.strV "1")] : RowL).map Prod.fst := by
  exact ⟨by decide, by decide⟩

/-- C10: in the per-row transform, an evaluator error is logged and leaves
the cell (indeed the whole row) unchanged, while a program result that is
not a `*option.Option` makes the unchecked cast `output.(*option.Option)`
panic the transform task; and `option.Value` itself panics on a `None`. -/
theorem condRule_panics_on_non_option (faker : String → String) (row : RowL)
    (column : String) (p : Exp) :
    (∀ e, evalExp faker (condEnv row column) p = Except.error e →
        applyDirective faker row column (Directive.cond p) = POr.ok row) ∧
    (∀ out, evalExp faker (condEnv row column) p = Except.ok out →
        (∀ isSome v, out ≠ RVal.cv (Cell.optV isSome v)) →
        applyDirective faker row column (Directive.cond p) = POr.panicked) ∧
    (∀ v, goOptionValue false v = POr.panicked) := by
  refine ⟨?_, ?_, fun v => rfl⟩
  · intro e he
    simp [applyDirective, he]
  · intro out hout hno
    cases out with
    | rowR r => simp [applyDirective, hout]
    | fnV t => simp [applyDirective, hout]
    | cv c =>
      cases c with
      | optV isSome v => exact absurd rfl (hno isSome v)
      | null => simp [applyDirective, hout]
      | intV n => simp [applyDirective, hout]
      | strV s => simp [applyDirective, hout]
      | bytes b => simp [applyDirective, hout]
      | boolV b => simp [applyDirective, hout]
      | unrepr => simp [applyDirective, hout]

/-- Witness for `condRule_panics_on_non_option`: a program returning the
plain string `"x"` panics the transform; `option.Value` on `None` panics. -/
theorem condRule_panics_witness :
    evalExp noFaker (condEnv [] "c") (Exp.str "x") = Except.ok (RVal.cv (Cell.strV "x")) ∧
    applyDirective noFaker [] "c" (Directive.cond (Exp.str "x")) = POr.panicked ∧
    goOptionValue false Cell.null = POr.panicked :=
  ⟨rfl,
   (condRule_panics_on_non_option noFaker [] "c" (Exp.str "x")).2.1 _ rfl
     (fun isSome v h => RVal.noConfusion h (fun hc => Cell.noConfusion hc)),
   (condRule_panics_on_non_option noFaker [] "c" (Exp.str "x")).2.2 Cell.null⟩

/-- Scan failures are skipped without affecting the rest of the stream:
publishing a row list equals publishing only its successfully scanned
rows. -/
theorem publishRows_skips_failed_scans (db : DB) (t : String) (opts : ReadTableOpt)
    (rows : List SRow) :
    publishRows db t opts rows = publishRows db t opts (rows.filter (fun sr => sr.scanOk)) := by
  induction rows with
  | nil => rfl
  | cons sr rest ih =>
    cases hok : sr.scanOk with
    | false => simp only [publishRows, List.filter_cons, hok, Bool.false_eq_true, if_false]; exact ih
    | true =>
      simp only [publishRows, List.filter_cons, hok, if_true]
      rcases hexp : expandRels db sr.cells opts.relationships with ⟨cp, e⟩
      cases e with
      | some err => rfl
      | none => rw [ih]

/-- C8 (amended): per-row scan failures are logged and skipped while the
stream continues; during relationship expansion a failed column lookup or
a failed child query terminates the read with an error, but a failed
foreign-key-value conversion is logged and only skips that expansion —
the read continues. -/
theorem readTable_error_policy (db : DB) (t : String) (opts : ReadTableOpt) :
    (∀ rows, publishRows db t opts rows =
        publishRows db t opts (rows.filter (fun sr => sr.scanOk))) ∧
    (∀ row r rest, db.columns r.referencedTable = none →
        expandRels db row (r :: rest) = ([], some ReadErr.relColumnsFailed)) ∧
    (∀ row r rest cols, db.columns r.referencedTable = some cols →
        toSQLStringValue (cellOf row r.foreignKey) = none →
        expandRels db row (r :: rest) = expandRels db row rest) ∧
    (∀ row r rest cols v, db.columns r.referencedTable = some cols →
        toSQLStringValue (cellOf row r.foreignKey) = some v →
        db.tables r.referencedTable = none →
        expandRels db row (r :: rest) = ([], some ReadErr.relQueryFailed)) := by
  refine ⟨publishRows_skips_failed_scans db t opts, ?_, ?_, ?_⟩
  · intro row r rest h
    simp [expandRels, h]
  · intro row r rest cols h hv
    simp [expandRels, h, hv]
  · intro row r rest cols v h hv ht
    simp [expandRels, h, hv, ht]

/-- Witness for `readTable_error_policy`: a foreign key holding a
non-representable value skips its expansion and the read continues. -/
theorem readTable_error_policy_witness :
    dbW.columns "users" = some ["id", "name"] ∧
    toSQLStringValue (cellOf [("user_id", Cell.unrepr)] "user_id") = none ∧
    expandRels dbW [("user_id", Cell.unrepr)] [relW] =
      expandRels dbW [("user_id", Cell.unrepr)] [] :=
  ⟨by decide, rfl,
   (readTable_error_policy dbW "orders" {}).2.2.1 [("user_id", Cell.unrepr)] relW []
     ["id", "name"] (by decide) rfl⟩

/-- C8 (counterexample): a relationship-expansion error (here: the
foreign-key cell is not representable as an SQL literal, so the
conversion fails) does NOT terminate the read of the table — the parent
row is still published and `publishRows` reports no error. -/
theorem relationship_error_not_fatal :
    toSQLStringValue Cell.unrepr = none ∧
    publishRows dbW "orders" { relationships := [relW] }
        [{ scanOk := true, cells := [("id", Cell.intV 7), ("user_id", Cell.unrepr)] }] =
      ([("orders", [("id", Cell.intV 7), ("user_id", Cell.unrepr)])], none) := by
  exact ⟨rfl, by decide⟩

/-- Every trace the reader produces on its sink is a block of row sends
followed by the single deferred close. -/
theorem readTable_shape (db : DB) (t : String) (opts : ReadTableOpt) :
    ∃ (pubs : List Pub) (e : Option ReadErr),
      readTable db t opts = (pubs.map Event.send ++ [Event.closeCh], e) := by
  unfold readTable
  cases effectiveOpts db t opts with
  | none => exact ⟨[], some ReadErr.getColumnsFailed, rfl⟩
  | some opts2 =>
    cases db.tables t with
    | none => exact ⟨[], some ReadErr.queryFailed, rfl⟩
    | some rows => exact ⟨_, _, rfl⟩

/-- A send-block-plus-close trace contains exactly one close, at the end. -/
theorem sends_close_trace (l : List Pub) :
    (l.map Event.send ++ [Event.closeCh]).count Event.closeCh = 1 ∧
    (l.map Event.send ++ [Event.closeCh]).getLast? = some Event.closeCh := by
  constructor
  · induction l with
    | nil => rfl
    | cons p rest ih => simpa [List.count_cons] using ih
  · exact List.getLast?_concat _

/-- The transform task forwards sends one by one and closes the downstream
sink exactly when the upstream closes; when it completes (no panic) the
downstream trace again holds exactly one close, at the end. -/
theorem transformTask_single_close (f : RowL → POr RowL) (l : List Pub)
    (es : List Event)
    (h : transformTask f (l.map Event.send ++ [Event.closeCh]) = some es) :
    es.count Event.closeCh = 1 ∧ es.getLast? = some Event.closeCh := by
  induction l generalizing es with
  | nil =>
    simp only [List.map_nil, List.nil_append, transformTask] at h
    cases h
    exact ⟨rfl, rfl⟩
  | cons p rest ih =>
    obtain ⟨tn, row⟩ := p
    cases hf : f row with
    | panicked =>
      simp only [List.map_cons, List.cons_append, transformTask, hf] at h
      cases h
    | ok row2 =>
      simp only [List.map_cons, List.cons_append, transformTask, hf, List.append_eq] at h
      cases hrec : transformTask f (List.map Event.send rest ++ [Event.closeCh]) with
      | none => rw [hrec] at h; cases h
      | some es2 =>
        rw [hrec] at h
        simp at h
        subst h
        obtain ⟨hcount, hlast⟩ := ih es2 hrec
        refine ⟨by simpa [List.count_cons] using hcount, ?_⟩
        cases es2 with
        | nil => simp at hlast
        | cons y ys => simpa [List.getLast?_cons_cons] using hlast

/-- C3: the reader closes the caller's sink exactly once by the time the
call returns (the trace ends with its single close); through the
anonymiser — whether it delegates or spawns the transform task — any trace
delivered to the caller's sink (the task completing without panic) again
holds exactly one close, produced by the task exactly when the
intermediate upstream channel closes. -/
theorem channel_closed_once (db : DB) (cfgs : List TableCfg) (faker : String → String)
    (t : String) (opts : ReadTableOpt) :
    ((readTable db t opts).1.count Event.closeCh = 1 ∧
     (readTable db t opts).1.getLast? = some Event.closeCh) ∧
    (∀ es, (anonymiserReadTable db cfgs faker t opts).1 = some es →
        es.count Event.closeCh = 1 ∧ es.getLast? = some Event.closeCh) := by
  obtain ⟨pubs, e, hsh⟩ := readTable_shape db t opts
  have h1 : (readTable db t opts).1.count Event.closeCh = 1 ∧
      (readTable db t opts).1.getLast? = some Event.closeCh := by
    rw [hsh]
    exact sends_close_trace pubs
  refine ⟨h1, ?_⟩
  intro es h
  unfold anonymiserReadTable at h
  rw [hsh] at h
  split at h
  · simp only [Option.some_inj] at h
    subst h
    exact sends_close_trace pubs
  · split at h
    · simp only [Option.some_inj] at h
      subst h
      exact sends_close_trace pubs
    · exact transformTask_single_close _ pubs es h

/-- Witness for `channel_closed_once` through the transforming path: the
anonymiser on `users` with a literal rule delivers one send and exactly
one close. -/
theorem channel_closed_once_witness :
    (anonymiserReadTable dbW cfgsW noFaker "users" { columns := ["c"] }).1 =
      some [Event.send ("users", [("id", Cell.intV 3), ("name", Cell.strV "anon")]),
            Event.closeCh] ∧
    List.count Event.closeCh
        [Event.send ("users", [("id", Cell.intV 3), ("name", Cell.strV "anon")]),
         Event.closeCh] = 1 :=
  ⟨by decide,
   ((channel_closed_once dbW cfgsW noFaker "users" { columns := ["c"] }).2 _
      (by decide)).1⟩

/-- Nothing is in flight before any table is launched. -/
theorem occupiedCount_replicate (n : Nat) :
    occupiedCount (List.replicate n TPhase.pending) = 0 := by
  rw [occupiedCount, List.countP_eq_zero]
  intro a ha
  rw [List.eq_of_mem_replicate ha]
  simp [occupies]

/-- Updating one position of the phase list changes the occupied count by
the difference of the old and new phase. -/
theorem countP_set_eq (p : TPhase → Bool) (l : List TPhase) (i : Nat) (x a : TPhase)
    (h : l.get? i = some x) :
    (l.set i a).countP p + (if p x then 1 else 0) =
      l.countP p + (if p a then 1 else 0) := by
  induction l generalizing i with
  | nil => simp at h
  | cons hd tl ih =>
    cases i with
    | zero =>
      simp only [List.get?] at h
      cases h
      simp only [List.set, List.countP_cons]
      omega
    | succ j =>
      simp only [List.get?] at h
      simp only [List.set, List.countP_cons]
      have := ih j h
      omega

/-- C4: along every schedule the engine's semaphore discipline admits, the
number of in-flight table dumps (tables holding their slot across the
lifetime of reader and dumper, released only when the dumper finishes)
never exceeds the configured concurrency. -/
theorem dump_concurrency_bound (conc n : Nat) (s : List TPhase)
    (h : DumpReachable conc n s) : occupiedCount s ≤ conc := by
  unfold DumpReachable at h
  induction h with
  | refl => rw [occupiedCount_replicate]; exact Nat.zero_le conc
  | @tail b c hpre step ih =>
    cases step with
    | launch i hp hc =>
      have hset := countP_set_eq (fun ph => occupies ph) b i TPhase.pending TPhase.bothActive hp
      have e1 : (if occupies TPhase.pending then (1 : Nat) else 0) = 0 := rfl
      have e2 : (if occupies TPhase.bothActive then (1 : Nat) else 0) = 1 := rfl
      rw [e1, e2] at hset
      unfold occupiedCount at ih hc ⊢
      omega
    | readerFinish i hp =>
      have hset := countP_set_eq (fun ph => occupies ph) b i TPhase.bothActive TPhase.readerFin hp
      have e1 : (if occupies TPhase.bothActive then (1 : Nat) else 0) = 1 := rfl
      have e2 : (if occupies TPhase.readerFin then (1 : Nat) else 0) = 1 := rfl
      rw [e1, e2] at hset
      unfold occupiedCount at ih ⊢
      omega
    | dumperFinish i hp =>
      have hset := countP_set_eq (fun ph => occupies ph) b i TPhase.readerFin TPhase.released hp
      have e1 : (if occupies TPhase.readerFin then (1 : Nat) else 0) = 1 := rfl
      have e2 : (if occupies TPhase.released then (1 : Nat) else 0) = 0 := rfl
      rw [e1, e2] at hset
      unfold occupiedCount at ih ⊢
      omega

/-- Witness for `dump_concurrency_bound`: with concurrency 1 and two
tables, launch–read–dump–release the first, then launch the second; the
bound holds in the reached state. -/
theorem dump_concurrency_bound_witness :
    DumpReachable 1 2 [TPhase.released, TPhase.bothActive] ∧
    occupiedCount [TPhase.released, TPhase.bothActive] ≤ 1 := by
  have h0 : DumpStep 1 [TPhase.pending, TPhase.pending] [TPhase.bothActive, TPhase.pending] :=
    DumpStep.launch _ 0 rfl (by decide)
  have h1 : DumpStep 1 [TPhase.bothActive, TPhase.pending] [TPhase.readerFin, TPhase.pending] :=
    DumpStep.readerFinish _ 0 rfl
  have h2 : DumpStep 1 [TPhase.readerFin, TPhase.pending] [TPhase.released, TPhase.pending] :=
    DumpStep.dumperFinish _ 0 rfl
  have h3 : DumpStep 1 [TPhase.released, TPhase.pending] [TPhase.released, TPhase.bothActive] :=
    DumpStep.launch _ 1 rfl (by decide)
  have hr : DumpReachable 1 2 [TPhase.released, TPhase.bothActive] :=
    Relation.ReflTransGen.head h0
      (Relation.ReflTransGen.head h1
        (Relation.ReflTransGen.head h2
          (Relation.ReflTransGen.head h3 Relation.ReflTransGen.refl)))
  exact ⟨hr, dump_concurrency_bound 1 2 _ hr⟩

/-- C6 (amended): every view gets the weight configured under its name,
defaulting to max-int when absent; the emitted DDL is non-decreasing by
weight; and for the S5 input (`views = {b:1, a:2}`, discovery order
`[a,b]`) any outcome `sort.Slice` may produce is exactly `[b,a]` — but tie
order is NOT fixed, since `sort.Slice` guarantees only sortedness. -/
theorem getViewDefinitions_order (views : List (String × Int)) (discovered : List String)
    (out : List WView) (bodies : String → String)
    (h : sortSliceSpec (weightedViews views discovered) out) :
    (out.map WView.weight).Pairwise (· ≤ ·) ∧
    (∀ n, views.lookup n = none → getViewWeight n views = maxGoInt) ∧
    (views = [("b", 1), ("a", 2)] → discovered = ["a", "b"] →
      out = [⟨"b", 1⟩, ⟨"a", 2⟩] ∧
      viewDDLs bodies out =
        ["CREATE OR REPLACE VIEW " ++ quoteIdentifier "b" ++ " AS " ++ bodies "b" ++ ";\n",
         "CREATE OR REPLACE VIEW " ++ quoteIdentifier "a" ++ " AS " ++ bodies "a" ++ ";\n"]) := by
  obtain ⟨hperm, hsorted⟩ := h
  refine ⟨?_, ?_, ?_⟩
  · rw [List.pairwise_map]
    exact hsorted
  · intro n hn
    simp [getViewWeight, hn]
  · intro hv hd
    subst hv
    subst hd
    have hin : weightedViews [("b", 1), ("a", 2)] ["a", "b"] =
        [⟨"a", 2⟩, ⟨"b", 1⟩] := by decide
    rw [hin] at hperm
    have hlen := hperm.length_eq
    match out, hperm, hsorted, hlen with
    | [], hperm, _, hlen => simp at hlen
    | [u], hperm, _, hlen => simp at hlen
    | u :: v :: w :: t, hperm, _, hlen => simp at hlen
    | [u, v], hperm, hsorted, hlen =>
      have huv : u.weight ≤ v.weight := by
        have := List.pairwise_cons.mp hsorted
        exact this.1 v (by simp)
      have hmema : (⟨"a", 2⟩ : WView) ∈ [u, v] := hperm.subset (by simp)
      have hmemb : (⟨"b", 1⟩ : WView) ∈ [u, v] := hperm.subset (by simp)
      rcases List.mem_cons.mp hmema with ha | ha
      · rcases List.mem_cons.mp hmemb with hb | hb
        · rw [← ha] at hb
          exact absurd hb (by decide)
        · have hb2 : (⟨"b", 1⟩ : WView) = v := List.mem_singleton.mp hb
          rw [← ha, ← hb2] at huv
          exact absurd huv (by decide)
      · have ha2 : (⟨"a", 2⟩ : WView) = v := List.mem_singleton.mp ha
        rcases List.mem_cons.mp hmemb with hb | hb
        · rw [← hb, ← ha2]
          exact ⟨rfl, rfl⟩
        · have hb2 : (⟨"b", 1⟩ : WView) = v := List.mem_singleton.mp hb
          rw [← ha2] at hb2
          exact absurd hb2 (by decide)

/-- C6 (counterexample): with two views of equal weight, an output that
reverses the discovery order satisfies everything `sort.Slice` guarantees,
so the claimed stable tie-breaking ("ties preserve discovery order") is
not ensured by the code. -/
theorem view_sort_not_stable :
    sortSliceSpec (weightedViews [("a", 1), ("b", 1)] ["a", "b"]) [⟨"b", 1⟩, ⟨"a", 1⟩] ∧
    ([⟨"b", 1⟩, ⟨"a", 1⟩] : List WView).map WView.name ≠ ["a", "b"] := by
  refine ⟨⟨?_, ?_⟩, by decide⟩
  · have hin : weightedViews [("a", 1), ("b", 1)] ["a", "b"] =
        [⟨"a", 1⟩, ⟨"b", 1⟩] := by decide
    rw [hin]
    exact List.Perm.swap (⟨"b", 1⟩ : WView) (⟨"a", 1⟩ : WView) []
  · exact List.Pairwise.cons (by intro a ha; simp at ha; subst ha; decide)
      (List.Pairwise.cons (by intro a ha; simp at ha) List.Pairwise.nil)

/-- Witness for `getViewDefinitions_order` at the S5 input. -/
theorem getViewDefinitions_order_witness :
    sortSliceSpec (weightedViews [("b", 1), ("a", 2)] ["a", "b"]) [⟨"b", 1⟩, ⟨"a", 2⟩] ∧
    viewDDLs (fun _ => "SELECT 1") [⟨"b", 1⟩, ⟨"a", 2⟩] =
      ["CREATE OR REPLACE VIEW " ++ quoteIdentifier "b" ++ " AS " ++ "SELECT 1" ++ ";\n",
       "CREATE OR REPLACE VIEW " ++ quoteIdentifier "a" ++ " AS " ++ "SELECT 1" ++ ";\n"] := by
  have hyp : sortSliceSpec (weightedViews [("b", 1), ("a", 2)] ["a", "b"])
      [⟨"b", 1⟩, ⟨"a", 2⟩] := by
    constructor
    · have hin : weightedViews [("b", 1), ("a", 2)] ["a", "b"] =
          [⟨"a", 2⟩, ⟨"b", 1⟩] := by decide
      rw [hin]
      exact List.Perm.swap (⟨"b", 1⟩ : WView) (⟨"a", 2⟩ : WView) []
    · exact List.Pairwise.cons (by intro a ha; simp at ha; subst ha; decide)
        (List.Pairwise.cons (by intro a ha; simp at ha) List.Pairwise.nil)
  exact ⟨hyp,
    ((getViewDefinitions_order [("b", 1), ("a", 2)] ["a", "b"] [⟨"b", 1⟩, ⟨"a", 2⟩]
        (fun _ => "SELECT 1") hyp).2.2 rfl rfl).2⟩

/-- Erasing the provenance tag from the instrumented publisher yields
exactly the publisher: same stream, same error. -/
theorem publishRowsT_erase (db : DB) (t : String) (opts : ReadTableOpt)
    (rows : List SRow) :
    (publishRowsT db t opts rows).1.map Prod.snd = (publishRows db t opts rows).1 ∧
    (publishRowsT db t opts rows).2 = (publishRows db t opts rows).2 := by
  induction rows with
  | nil => exact ⟨rfl, rfl⟩
  | cons sr rest ih =>
    cases hok : sr.scanOk with
    | false =>
      simp only [publishRowsT, publishRows, hok, Bool.false_eq_true, if_false]
      exact ih
    | true =>
      rcases hexp : expandRels db sr.cells opts.relationships with ⟨cp, e⟩
      cases e with
      | some err =>
        simp only [publishRowsT, publishRows, hok, if_true, hexp]
        simp [List.map_map, Function.comp]
      | none =>
        simp only [publishRowsT, publishRows, hok, if_true, hexp]
        rcases hrec : publishRowsT db t opts rest with ⟨restT, e2⟩
        rcases hrec2 : publishRows db t opts rest with ⟨restU, e3⟩
        rw [hrec, hrec2] at ih
        simp only at ih
        simp [List.map_map, Function.comp, ih.1, ih.2]

/-- A successfully scanned member of the plain-published row list appears
in the published stream. -/
theorem mem_publishPlain (t : String) (rows : List SRow) (C : SRow)
    (hC : C ∈ rows) (hok : C.scanOk = true) :
    (t, C.cells) ∈ publishPlain t rows := by
  simp only [publishPlain, List.mem_filterMap]
  exact ⟨C, hC, by simp [hok]⟩

/-- A cell whose SQL rendering is the literal matches the literal. -/
theorem cellMatches_of_toSQL (v : Cell) (s : String)
    (h : toSQLStringValue v = some s) : cellMatchesLiteral v s = true := by
  simp [cellMatchesLiteral, h]

/-- When relationship expansion for a parent row completes without error,
every successfully scanned row of the referenced table whose referenced
key matches the parent's foreign-key value is among the published child
rows. -/
theorem expandRels_mem (db : DB) (P : RowL) (r : RelOpt) (cols : List String)
    (childRows : List SRow) (v : String) (C : SRow)
    (hc : db.columns r.referencedTable = some cols)
    (ht : db.tables r.referencedTable = some childRows)
    (hv : toSQLStringValue (cellOf P r.foreignKey) = some v)
    (hC : C ∈ childRows) (hok : C.scanOk = true)
    (hk : cellOf C.cells r.referencedKey = cellOf P r.foreignKey) :
    ∀ rels pubs, r ∈ rels → expandRels db P rels = (pubs, none) →
      (r.referencedTable, C.cells) ∈ pubs := by
  intro rels
  induction rels with
  | nil => intro pubs hr _; simp at hr
  | cons r0 rest ih =>
    intro pubs hr he
    rcases hrec : expandRels db P rest with ⟨restPubs, e2⟩
    rcases List.mem_cons.mp hr with hr0 | hrrest
    · subst hr0
      simp only [expandRels, hc, hv, ht, hrec] at he
      have hpubs : publishPlain r.referencedTable
          (childRows.filter (fun c => cellMatchesLiteral (cellOf c.cells r.referencedKey) v))
            ++ restPubs = pubs := congrArg Prod.fst he
      rw [← hpubs]
      apply List.mem_append_left
      apply mem_publishPlain
      · apply List.mem_filter.mpr
        refine ⟨hC, ?_⟩
        rw [hk]
        exact cellMatches_of_toSQL _ _ hv
      · exact hok
    · simp only [expandRels] at he
      cases hc0 : db.columns r0.referencedTable with
      | none => rw [hc0] at he; simp at he
      | some cols0 =>
        rw [hc0] at he
        cases hv0 : toSQLStringValue (cellOf P r0.foreignKey) with
        | none =>
          rw [hv0] at he
          exact ih pubs hrrest he
        | some v0 =>
          rw [hv0] at he
          cases ht0 : db.tables r0.referencedTable with
          | none => rw [ht0] at he; simp at he
          | some rows0 =>
            rw [ht0, hrec] at he
            simp only at he
            have he2 : e2 = none := congrArg Prod.snd he
            have hpubs : publishPlain r0.referencedTable
                (rows0.filter (fun c => cellMatchesLiteral (cellOf c.cells r0.referencedKey) v0))
                  ++ restPubs = pubs := congrArg Prod.fst he
            rw [← hpubs]
            apply List.mem_append_right
            exact ih restPubs hrrest (by rw [hrec, he2])

/-- Every element the instrumented publisher tags as a child is tagged
`false`; helper for reasoning about child blocks. -/
theorem mem_map_false_fst (pubs : List Pub) (x : Bool × Pub)
    (hx : x ∈ pubs.map (fun p => (false, p))) : x.1 = false := by
  obtain ⟨p, _, hpe⟩ := List.mem_map.mp hx
  rw [← hpe]

/-- Core ordering property of the instrumented publisher: ahead of every
parent-tagged emission `(t, P)`, each matching, successfully scanned row of
the referenced table occurs, and between that child and its parent nothing
is parent-tagged. -/
theorem publishRowsT_child_before (db : DB) (t : String) (opts : ReadTableOpt)
    (r : RelOpt) (cols : List String) (childRows : List SRow) (C : SRow)
    (hr : r ∈ opts.relationships)
    (hc : db.columns r.referencedTable = some cols)
    (ht : db.tables r.referencedTable = some childRows)
    (hC : C ∈ childRows) (hok : C.scanOk = true) :
    ∀ (rows : List SRow) (A B : List (Bool × Pub)) (P : RowL) (v : String),
      (publishRowsT db t opts rows).1 = A ++ (true, (t, P)) :: B →
      toSQLStringValue (cellOf P r.foreignKey) = some v →
      cellOf C.cells r.referencedKey = cellOf P r.foreignKey →
      ∃ A1 A2, A = A1 ++ (false, (r.referencedTable, C.cells)) :: A2 ∧
        ∀ x ∈ A2, x.1 = false := by
  intro rows
  induction rows with
  | nil =>
    intro A B P v h _ _
    simp only [publishRowsT] at h
    exact absurd h.symm (List.append_ne_nil_of_right_ne_nil _ (List.cons_ne_nil _ _))
  | cons sr rest ih =>
    intro A B P v h hv hk
    cases hok2 : sr.scanOk with
    | false =>
      simp only [publishRowsT, hok2, Bool.false_eq_true, if_false] at h
      exact ih A B P v h hv hk
    | true =>
      rcases hexp : expandRels db sr.cells opts.relationships with ⟨cp, e⟩
      cases e with
      | some err =>
        simp only [publishRowsT, hok2, if_true, hexp] at h
        have hmem : (true, (t, P)) ∈ cp.map (fun p => (false, p)) := by
          rw [h]
          exact List.mem_append_right _ (List.mem_cons_self _ _)
        have := mem_map_false_fst cp _ hmem
        simp at this
      | none =>
        rcases hrecT : publishRowsT db t opts rest with ⟨restT, e2⟩
        simp only [publishRowsT, hok2, if_true, hexp, hrecT] at h
        have hsplit := List.append_eq_append_iff.mp h.symm
        rcases hsplit with ⟨a2, hF, hyB⟩ | ⟨c2, hA, hxS⟩
        · cases a2 with
          | nil =>
            simp only [List.append_nil] at hF
            have hheads := List.cons_eq_cons.mp hyB
            obtain ⟨hy, hB⟩ := hheads
            have hP : P = sr.cells := by
              have := (Prod.mk.injEq _ _ _ _).mp hy
              have := (Prod.mk.injEq _ _ _ _).mp this.2
              exact this.2
            subst hP
            have hmemcp : (r.referencedTable, C.cells) ∈ cp :=
              expandRels_mem db sr.cells r cols childRows v C hc ht hv hC hok hk
                opts.relationships cp hr hexp
            have hmemF : (false, (r.referencedTable, C.cells)) ∈
                cp.map (fun p => (false, p)) :=
              List.mem_map.mpr ⟨_, hmemcp, rfl⟩
            rw [hF] at hmemF
            obtain ⟨A1, A2, hA12⟩ := List.append_of_mem hmemF
            refine ⟨A1, A2, hA12, ?_⟩
            intro x hx
            have hxA : x ∈ A := by
              rw [hA12]
              exact List.mem_append_right _ (List.mem_cons_of_mem _ hx)
            rw [← hF] at hxA
            exact mem_map_false_fst cp x hxA
          | cons z a3 =>
            have hheads := List.cons_eq_cons.mp hyB
            obtain ⟨hy, _⟩ := hheads
            have hzmem : z ∈ cp.map (fun p => (false, p)) := by
              rw [hF]
              exact List.mem_append_right _ (List.mem_cons_self _ _)
            have := mem_map_false_fst cp z hzmem
            rw [← hy] at this
            simp at this
        · cases c2 with
          | nil =>
            simp only [List.append_nil] at hA
            have hheads := List.cons_eq_cons.mp hxS
            obtain ⟨hy, hB⟩ := hheads
            have hP : P = sr.cells := by
              have h1 := (Prod.mk.injEq _ _ _ _).mp hy
              have h2 := (Prod.mk.injEq _ _ _ _).mp h1.2
              exact h2.2.symm
            subst hP
            have hmemcp : (r.referencedTable, C.cells) ∈ cp :=
              expandRels_mem db sr.cells r cols childRows v C hc ht hv hC hok hk
                opts.relationships cp hr hexp
            have hmemF : (false, (r.referencedTable, C.cells)) ∈
                cp.map (fun p => (false, p)) :=
              List.mem_map.mpr ⟨_, hmemcp, rfl⟩
            rw [← hA] at hmemF
            obtain ⟨A1, A2, hA12⟩ := List.append_of_mem hmemF
            refine ⟨A1, A2, hA12, ?_⟩
            intro x hx
            have hxA : x ∈ A := by
              rw [hA12]
              exact List.mem_append_right _ (List.mem_cons_of_mem _ hx)
            rw [hA] at hxA
            exact mem_map_false_fst cp x hxA
          | cons z c3 =>
            have hheads := List.cons_eq_cons.mp hxS
            obtain ⟨hz, hS⟩ := hheads
            have hrest : restT = c3 ++ (true, (t, P)) :: B := hS
            have ihres := ih c3 B P v (by rw [hrecT]; exact hrest) hv hk
            obtain ⟨A1, A2, hc3, hfalse⟩ := ihres
            refine ⟨cp.map (fun p => (false, p)) ++ z :: A1, A2, ?_, hfalse⟩
            rw [hA, hc3]
            simp [List.append_assoc]

/-- C1: erasing the instrumentation tag gives exactly the published
stream, and for every parent row emitted by `publishRows` for table `t`
with a configured relationship, every successfully scanned row of the
referenced table whose `referenced_key` (SQL-)equals the parent's
`foreign_key` value is published to the same sink strictly before the
parent, with no parent row of the table published in between (expansion
itself proceeds depth-first over the relationships in declaration order,
as `expandRels` folds them left to right). -/
theorem relationship_rows_before_parent (db : DB) (t : String) (opts : ReadTableOpt)
    (rows : List SRow) :
    ((publishRowsT db t opts rows).1.map Prod.snd = (publishRows db t opts rows).1 ∧
     (publishRowsT db t opts rows).2 = (publishRows db t opts rows).2) ∧
    (∀ (A B : List (Bool × Pub)) (P : RowL) (r : RelOpt) (cols : List String)
        (childRows : List SRow) (v : String) (C : SRow),
      (publishRowsT db t opts rows).1 = A ++ (true, (t, P)) :: B →
      r ∈ opts.relationships →
      db.columns r.referencedTable = some cols →
      db.tables r.referencedTable = some childRows →
      toSQLStringValue (cellOf P r.foreignKey) = some v →
      C ∈ childRows → C.scanOk = true →
      cellOf C.cells r.referencedKey = cellOf P r.foreignKey →
      ∃ A1 A2, A = A1 ++ (false, (r.referencedTable, C.cells)) :: A2 ∧
        ∀ x ∈ A2, x.1 = false) := by
  refine ⟨publishRowsT_erase db t opts rows, ?_⟩
  intro A B P r cols childRows v C h hrel hc ht hv hC hok hk
  exact publishRowsT_child_before db t opts r cols childRows C hrel hc ht hC hok
    rows A B P v h hv hk

/-- Witness for `relationship_rows_before_parent` at the S4 scenario: the
order row `{id:7, user_id:3}` is preceded by the matching `users` row
`{id:3}`. -/
theorem relationship_rows_before_parent_witness :
    (publishRowsT dbW "orders" optsW
        [{ scanOk := true, cells := [("id", Cell.intV 7), ("user_id", Cell.intV 3)] }]).1 =
      [(false, ("users", [("id", Cell.intV 3), ("name", Cell.strV "ann")]))] ++
        (true, ("orders", [("id", Cell.intV 7), ("user_id", Cell.intV 3)])) :: [] ∧
    relW ∈ optsW.relationships ∧
    (∃ A1 A2,
      [(false, ("users", [("id", Cell.intV 3), ("name", Cell.strV "ann")]))] =
        A1 ++ (false, ("users", [("id", Cell.intV 3), ("name", Cell.strV "ann")])) :: A2 ∧
      ∀ x ∈ A2, x.1 = false) :=
  ⟨by decide, by decide,
   (relationship_rows_before_parent dbW "orders" optsW
       [{ scanOk := true, cells := [("id", Cell.intV 7), ("user_id", Cell.intV 3)] }]).2
     [(false, ("users", [("id", Cell.intV 3), ("name", Cell.strV "ann")]))] []
     [("id", Cell.intV 7), ("user_id", Cell.intV 3)] relW ["id", "name"]
     [{ scanOk := true, cells := [("id", Cell.intV 3), ("name", Cell.strV "ann")] }]
     "3" { scanOk := true, cells := [("id", Cell.intV 3), ("name", Cell.strV "ann")] }
     (by decide) (by decide) (by decide) (by decide) (by decide) (by decide)
     (by decide) (by decide)⟩
